import Mathlib

/-!
Verification of the telemetry relay in `WebRepo/server/app.py`
(with `server/auth.py` and `server/models.py`).

The relay keeps a single latest snapshot (`_latest_payload`,
`_latest_received_at`), a set of bounded subscriber queues
(`_subscribers`, each an `asyncio.Queue(maxsize=10)`), and three
operations: `ingest` (publish), `latest` (get-latest) and the SSE
`event_generator` (open-stream).

Shallow embedding conventions:
- JSON values are the inductive `Json`; `time.time()` floats are
  modelled as rationals (`Rat`).
- The Python `set` of queue objects is modelled as an association list
  from a queue identity (`Nat`) to the queue contents; a queue is a
  `List Json` (the code enqueues the compact `json.dumps` serialization
  of the envelope; the serialization is injective on the envelopes so
  the model enqueues the JSON value itself).
- Every `async` operation of the code mutates shared state only inside
  one lock-protected / suspension-free region, so each operation is one
  atomic step of the trace semantics (`SysOp` / `runSys`).
-/

namespace Relay

/-- A JSON value, as handled by `json.dumps` in the server code.
Objects keep key order, as Python dicts do. -/
inductive Json where
  | null : Json
  | bool : Bool → Json
  | num : Rat → Json
  | str : String → Json
  | arr : List Json → Json
  | obj : List (String × Json) → Json

/-- Field lookup in a JSON object: first binding of the key, if any. -/
def Json.getField : Json → String → Option Json
  | .obj l, k => (l.find? (fun p => p.1 = k)).map Prod.snd
  | _, _ => none

/-- Key list of a JSON object (empty for non-objects). -/
def Json.keys : Json → List String
  | .obj l => l.map Prod.fst
  | _ => []

/-- The `User` row of `server/models.py`: FastAPI-Users base fields the
relay reads (`email`, `is_active`) plus the API-key columns
(`api_key_prefix`, named `api_key_pfx` here, and `api_key_hash`;
`api_key_created_at` is never read by the relay and is omitted). -/
structure User where
  email : String
  is_active : Bool
  api_key_pfx : Option String
  api_key_hash : Option String
  deriving DecidableEq, Repr

/-- The module-level relay state of `app.py`:
`_latest_payload`, `_latest_received_at`, `_subscribers`.
Each subscriber queue is keyed by the identity of its
`asyncio.Queue` object. -/
structure RelayState where
  latest_payload : Option Json
  latest_received_at : Option Rat
  subscribers : List (Nat × List Json)

/-- The state at process start: nothing published, no subscribers. -/
def initState : RelayState :=
  { latest_payload := none, latest_received_at := none, subscribers := [] }

/-- The `asyncio.Queue(maxsize=10)` capacity used by `event_generator`. -/
def QUEUE_MAXSIZE : Nat := 10

/-- The broadcast step of `ingest` for one queue:
`if q.full(): continue` then `q.put_nowait(message)` —
drop the message when the queue is at capacity, else append. -/
def queue_put (q : List Json) (msg : Json) : List Json :=
  if QUEUE_MAXSIZE ≤ q.length then q else q ++ [msg]

/-- Model of `_authenticate_slave_api_key`, `app.py` lines 39-55 (identical in
`auth.py` lines 65-81). `H` models `hashlib.sha256(...).hexdigest()`;
the code computes the digest of the WHOLE compound key and compares it
with the stored `api_key_hash` using `hmac.compare_digest` (modelled as
equality; the constant-time property of the comparison is a timing fact
outside the embedding). A falsy stored hash (`None` or the empty
string) is rejected before hashing. String primitives are modelled on
the character list: Python `"." in api_key` is `key.data.contains '.'`
and `api_key.split(".", 1)[0]` is the characters before the first
dot. -/
def authenticate_slave_api_key (H : String → String) (db : List User)
    (api_key : Option String) : Option User :=
  match api_key with
  | none => none
  | some key =>
    if key = "" then none
    else if ¬ key.data.contains '.' then none
    else
      let pfx := String.mk (key.data.takeWhile (fun c => c ≠ '.'))
      if pfx = "" then none
      else
        match db.find? (fun u => u.api_key_pfx = some pfx) with
        | none => none
        | some u =>
          match u.api_key_hash with
          | none => none
          | some h =>
            if h = "" then none
            else if H key = h then some u else none

/-- Model of `_require_active_user_or_api_key`, `app.py` lines 58-73: accept an
active browser user, else an API key resolving to an active user, else
reject (`none` models the raised 401). -/
def require_active_user_or_api_key (H : String → String) (db : List User)
    (browser_user : Option User) (api_key : Option String) : Option User :=
  let apiPath :=
    match authenticate_slave_api_key H db api_key with
    | some au => if au.is_active then some au else none
    | none => none
  match browser_user with
  | some bu => if bu.is_active then some bu else apiPath
  | none => apiPath

/-- The response of `POST /api/ingest`: `PlainTextResponse("Unauthorized",
status_code=401)` or the success body. -/
inductive IngestResponse where
  | unauthorized : IngestResponse
  | ok : IngestResponse
  deriving DecidableEq, Repr

/-- The broadcast envelope built by `ingest` lines 136-143:
`json.dumps({"received_at": t, "publisher": user.email, "payload": p})`. -/
def envelope (received_at : Rat) (pub : String) (payload : Json) : Json :=
  Json.obj [("received_at", Json.num received_at),
            ("publisher", Json.str pub),
            ("payload", payload)]

/-- Model of `ingest`, `app.py` lines 121-152: authenticate the `x-api-key`
header via `_authenticate_slave_api_key` (no activity check); on failure
return 401 leaving the state untouched; on success overwrite
`_latest_payload` and `_latest_received_at` (no suspension point between
the two assignments), build the envelope, and offer it to every
subscriber queue, skipping full ones. `now` models `time.time()`. -/
def ingest (H : String → String) (db : List User) (payload : Json)
    (api_key : Option String) (now : Rat) (st : RelayState) :
    IngestResponse × RelayState :=
  match authenticate_slave_api_key H db api_key with
  | none => (.unauthorized, st)
  | some user =>
    let msg := envelope now user.email payload
    (.ok,
      { st with
        latest_payload := some payload,
        latest_received_at := some now,
        subscribers := st.subscribers.map (fun p => (p.1, queue_put p.2 msg)) })

/-- Model of `latest`, `app.py` lines 260-264: the body of `GET /api/latest` —
`{"received_at": None, "payload": None}` before the first publish, else
`{"received_at": _latest_received_at, "payload": _latest_payload}`. -/
def latest (st : RelayState) : Json :=
  match st.latest_payload with
  | none => Json.obj [("received_at", Json.null), ("payload", Json.null)]
  | some p =>
    Json.obj [("received_at",
                match st.latest_received_at with
                | none => Json.null
                | some t => Json.num t),
              ("payload", p)]

/-! ## Stream session (`event_generator`, `app.py` lines 269-305)

The streaming loop is driven by what `asyncio.wait_for(queue.get(),
timeout=2.0)` produces on each iteration: a dequeued message, a
2-second `TimeoutError`, or disconnect/cancellation.  Each outcome is a
`LoopInput`; the time stamps on the inputs record the value
`time.time()` would return at that point of the trace (the message
branch never reads the clock, so its stamp is trace metadata only). -/

/-- One iteration outcome of the `while True` loop of `event_generator`. -/
inductive LoopInput where
  | msg : Rat → Json → LoopInput
  | timeout : Rat → LoopInput
  | disconnect : LoopInput

/-- An emission of `event_generator`: a `data: <json>\n\n` frame or the
comment-only `: keepalive\n\n` frame, stamped with the trace time at
which it was produced. -/
inductive StreamEvent where
  | data : Rat → Json → StreamEvent
  | keepalive : Rat → StreamEvent

/-- The `while True` loop of `event_generator` lines 286-302, run over a
list of iteration outcomes.  State is `last_keepalive` (initialised to
`0.0` at line 274).  A message is yielded as a data frame; a timeout
emits a keepalive iff `now - last_keepalive >= 15.0`, recording `now`;
disconnect (or `CancelledError`) breaks the loop. -/
def sessionRun (last_keepalive : Rat) : List LoopInput → List StreamEvent
  | [] => []
  | .disconnect :: _ => []
  | .msg now j :: rest => .data now j :: sessionRun last_keepalive rest
  | .timeout now :: rest =>
    if now - last_keepalive ≥ 15 then
      .keepalive now :: sessionRun now rest
    else
      sessionRun last_keepalive rest

/-- The keepalive time stamps of an emission list, in order. -/
def keepTimes : List StreamEvent → List Rat
  | [] => []
  | .keepalive t :: rest => t :: keepTimes rest
  | .data _ _ :: rest => keepTimes rest

/-- The registration step of `event_generator` lines 270-272: create the
fresh bounded queue (identity `k`) and add it to `_subscribers` under
the lock.  The queue object is fresh, so re-adding a present identity
cannot happen; the model guards on it to keep identities unique. -/
def streamRegister (k : Nat) (st : RelayState) : RelayState :=
  if (st.subscribers.find? (fun p => p.1 = k)).isSome then st
  else { st with subscribers := st.subscribers ++ [(k, [])] }

/-- The priming read of `event_generator` lines 277-283: if
`_latest_payload is not None`, the first frame is
`json.dumps({"received_at": _latest_received_at, "payload": _latest_payload})`
— note: no `"publisher"` field. -/
def primingEvent (st : RelayState) : Option Json :=
  match st.latest_payload with
  | none => none
  | some p =>
    some (Json.obj [("received_at",
                      match st.latest_received_at with
                      | none => Json.null
                      | some t => Json.num t),
                    ("payload", p)])

/-- Session startup as the code orders it — register the queue FIRST
(lines 270-272), then perform the priming read (line 278) — with one
publish interleaved strictly between the two steps.  Returns the
priming frame (if any) and the state after the publish. -/
def startup_register_first (H : String → String) (db : List User)
    (payload : Json) (api_key : Option String) (now : Rat)
    (k : Nat) (st : RelayState) : Option Json × RelayState :=
  let st1 := streamRegister k st
  let st2 := (ingest H db payload api_key now st1).2
  (primingEvent st2, st2)

/-- Startup as claim C9 words it (read latest first, register second),
for comparison with `startup_register_first`: the priming read is taken
from the pre-registration state, then the queue is registered, then the
interleaved publish runs. -/
def claim_startup_read_first (H : String → String) (db : List User)
    (payload : Json) (api_key : Option String) (now : Rat)
    (k : Nat) (st : RelayState) : Option Json × RelayState :=
  let pe := primingEvent st
  let st1 := streamRegister k st
  let st2 := (ingest H db payload api_key now st1).2
  (pe, st2)

/-! ## System traces

Each relay operation mutates shared state only in one lock-protected,
suspension-free region, so a concurrent execution is a sequence of
atomic operations.  `SysOp` is one such operation; `runSys` runs a
trace.  `emitted` records, per queue identity, the data frames the
owning session has already yielded. -/

/-- Association-list lookup by queue identity. -/
def assocGet {α : Type} (l : List (Nat × α)) (k : Nat) : Option α :=
  (l.find? (fun p => p.1 = k)).map Prod.snd

/-- Association-list update-in-place by queue identity. -/
def assocUpd {α : Type} (l : List (Nat × α)) (k : Nat) (f : α → α) :
    List (Nat × α) :=
  l.map (fun p => if p.1 = k then (p.1, f p.2) else p)

/-- An atomic operation of the relay:
a `POST /api/ingest` call, a session registering its fresh queue, the
`finally` unregister (`_subscribers.discard`), or a session dequeuing
one message and yielding it as a data frame. -/
inductive SysOp where
  | pub : Option String → Json → Rat → SysOp
  | register : Nat → SysOp
  | unregister : Nat → SysOp
  | drain : Nat → SysOp

/-- Relay state plus the per-session emission logs. -/
structure SysState where
  relay : RelayState
  emitted : List (Nat × List Json)

/-- One atomic step.  `pub` is `ingest`; `register` adds a fresh empty
queue (no-op on a present identity, as queue objects are fresh);
`unregister` is `_subscribers.discard` (idempotent, removes at most the
one entry); `drain` is `queue.get()` followed by the `data:` yield
(no-op on an empty or absent queue — `get` would suspend). -/
def sysStep (H : String → String) (db : List User) (st : SysState) :
    SysOp → SysState
  | .pub api_key payload now =>
    { st with relay := (ingest H db payload api_key now st.relay).2 }
  | .register k =>
    if (assocGet st.relay.subscribers k).isSome then st
    else
      { relay := { st.relay with
                    subscribers := st.relay.subscribers ++ [(k, [])] },
        emitted := if (assocGet st.emitted k).isSome then st.emitted
                   else st.emitted ++ [(k, [])] }
  | .unregister k =>
    { st with relay := { st.relay with
        subscribers := st.relay.subscribers.filter (fun p => ¬ p.1 = k) } }
  | .drain k =>
    match assocGet st.relay.subscribers k with
    | some (m :: restQ) =>
      { relay := { st.relay with
          subscribers := assocUpd st.relay.subscribers k (fun _ => restQ) },
        emitted := assocUpd st.emitted k (fun e => e ++ [m]) }
    | _ => st

/-- Run a trace of atomic operations. -/
def runSys (H : String → String) (db : List User) (st : SysState) :
    List SysOp → SysState
  | [] => st
  | op :: ops => runSys H db (sysStep H db st op) ops

/-- The empty system state: process start, no session open. -/
def initSys : SysState := { relay := initState, emitted := [] }

/-- The envelopes broadcast by the successful publishes of a trace, in
trace order. -/
def pubMsgs (H : String → String) (db : List User) : List SysOp → List Json
  | [] => []
  | .pub api_key payload now :: ops =>
    (match authenticate_slave_api_key H db api_key with
     | some u => [envelope now u.email payload]
     | none => []) ++ pubMsgs H db ops
  | _ :: ops => pubMsgs H db ops

/-- The payload/time pair written by the last successful publish of a
trace, accumulated left to right (`acc` is the pair already stored). -/
def lastPub (H : String → String) (db : List User) :
    Option (Json × Rat) → List SysOp → Option (Json × Rat)
  | acc, [] => acc
  | acc, .pub api_key payload now :: ops =>
    (match authenticate_slave_api_key H db api_key with
     | some _ => lastPub H db (some (payload, now)) ops
     | none => lastPub H db acc ops)
  | acc, _ :: ops => lastPub H db acc ops

/-- All subscriber queues are within the `maxsize=10` bound. -/
def capOK (st : SysState) : Prop :=
  ∀ p ∈ st.relay.subscribers, p.2.length ≤ QUEUE_MAXSIZE

/-! ## Concrete fixtures for witnesses and counterexamples

The claim theorems hold for every digest function `H`; the concrete
instances use the stand-in `H0` below (injective on the inputs used),
a database of one active and one inactive user, and small payloads. -/

/-- Stand-in for `hashlib.sha256(...).hexdigest()` in concrete
instances. -/
def H0 : String → String := fun s => s ++ "#digest"

/-- An active user whose API key is `u1.secretA`. -/
def aliceActive : User :=
  { email := "alice@example.com", is_active := true,
    api_key_pfx := some "u1", api_key_hash := some (H0 "u1.secretA") }

/-- An inactive (deactivated) user whose API key is `u2.secretB`. -/
def bobInactive : User :=
  { email := "bob@example.com", is_active := false,
    api_key_pfx := some "u2", api_key_hash := some (H0 "u2.secretB") }

/-- The user table used by the concrete instances. -/
def db0 : List User := [aliceActive, bobInactive]

/-- A small telemetry payload: the JSON object of one field `v = 1`. -/
def pay1 : Json := Json.obj [("v", Json.num 1)]

/-- A second payload, `v = 2`. -/
def pay2 : Json := Json.obj [("v", Json.num 2)]

/-- A system state with one registered, empty subscriber queue (id 0)
and nothing published yet. -/
def st0 : SysState :=
  { relay := { latest_payload := none, latest_received_at := none,
               subscribers := [(0, [])] },
    emitted := [(0, [])] }

/-- A concrete trace: two publishes by Alice with a drain in between,
plus a second subscriber registering mid-trace. -/
def ops0 : List SysOp :=
  [SysOp.pub (some "u1.secretA") pay1 100,
   SysOp.drain 0,
   SysOp.register 1,
   SysOp.pub (some "u1.secretA") pay2 101]

/-- Ten queued frames: a subscriber queue at capacity. -/
def fullQ : List Json := List.replicate 10 (envelope 99 "alice@example.com" pay1)

/-- A relay state with subscriber 0 at capacity and subscriber 1 empty. -/
def stFull : RelayState :=
  { latest_payload := none, latest_received_at := none,
    subscribers := [(0, fullQ), (1, [])] }

/-- A relay state holding the snapshot `pay1` (stamped 100) and no
subscribers: the state right before a stream session opens. -/
def relSnap : RelayState :=
  { latest_payload := some pay1, latest_received_at := some 100,
    subscribers := [] }

/-- The API-key check as claim C6 words it, for comparison with
`authenticate_slave_api_key`: split the compound key at the first dot,
look up the record by the prefix part, and verify the SECRET part alone
against the stored hash.  (The source instead hashes the whole compound
key; the stored value is an unsalted digest and the `User` row has no
salt column.) -/
def claim_verify_secret_only (H : String → String) (db : List User)
    (api_key : Option String) : Option User :=
  match api_key with
  | none => none
  | some key =>
    if key = "" then none
    else if ¬ key.data.contains '.' then none
    else
      let pfx := String.mk (key.data.takeWhile (fun c => c ≠ '.'))
      let secret := String.mk ((key.data.dropWhile (fun c => c ≠ '.')).drop 1)
      if pfx = "" then none
      else
        match db.find? (fun u => u.api_key_pfx = some pfx) with
        | none => none
        | some u =>
          match u.api_key_hash with
          | none => none
          | some h =>
            if h = "" then none
            else if H secret = h then some u else none

/-- A user whose stored hash is the digest of the SECRET alone — the
storage format claim C6 describes.  Key: `u3.secretC`. -/
def carol : User :=
  { email := "carol@example.com", is_active := true,
    api_key_pfx := some "u3", api_key_hash := some (H0 "secretC") }

/-- A relay state holding snapshot `pay1` (stamped 100) with one
registered empty subscriber queue. -/
def relSnapQ : RelayState :=
  { latest_payload := some pay1, latest_received_at := some 100,
    subscribers := [(0, [])] }

/-! ## Helper lemmas -/

theorem assocGet_map_snd {α β : Type} (f : α → β) (k : Nat) :
    ∀ l : List (Nat × α),
      assocGet (l.map (fun p => (p.1, f p.2))) k = (assocGet l k).map f := by
  intro l
  induction l with
  | nil => rfl
  | cons p rest ih =>
    by_cases h : p.1 = k
    · simp [assocGet, List.find?_cons, h]
    · simpa [assocGet, List.find?_cons, h] using ih

theorem assocGet_assocUpd_self {α : Type} (l : List (Nat × α)) (k : Nat)
    (f : α → α) : assocGet (assocUpd l k f) k = (assocGet l k).map f := by
  induction l with
  | nil => rfl
  | cons p rest ih =>
    by_cases h : p.1 = k
    · simp [assocGet, assocUpd, List.find?_cons, h]
    · simpa [assocGet, assocUpd, List.find?_cons, h] using ih

theorem assocGet_assocUpd_ne {α : Type} (l : List (Nat × α)) (j k : Nat)
    (f : α → α) (h : k ≠ j) : assocGet (assocUpd l j f) k = assocGet l k := by
  induction l with
  | nil => rfl
  | cons p rest ih =>
    obtain ⟨a, b⟩ := p
    by_cases hp : a = j
    · subst hp
      have hpk : ¬ a = k := fun hk => h (hk ▸ rfl)
      simpa [assocGet, assocUpd, List.find?_cons, hpk] using ih
    · by_cases hk : a = k
      · subst hk
        simp [assocGet, assocUpd, List.find?_cons, hp]
      · simpa [assocGet, assocUpd, List.find?_cons, hp, hk] using ih

theorem assocGet_append_single_ne {α : Type} (l : List (Nat × α)) (j k : Nat)
    (x : α) (h : k ≠ j) : assocGet (l ++ [(j, x)]) k = assocGet l k := by
  induction l with
  | nil =>
    have : ¬ j = k := fun hj => h hj.symm
    simp [assocGet, List.find?_cons, this]
  | cons p rest ih =>
    obtain ⟨a, b⟩ := p
    by_cases hk : a = k
    · simp [assocGet, List.find?_cons, hk]
    · simpa [assocGet, List.find?_cons, hk] using ih

theorem assocGet_filter_ne {α : Type} (l : List (Nat × α)) (j k : Nat)
    (h : k ≠ j) :
    assocGet (l.filter (fun p => ¬ p.1 = j)) k = assocGet l k := by
  induction l with
  | nil => rfl
  | cons p rest ih =>
    obtain ⟨a, b⟩ := p
    by_cases hp : a = j
    · subst hp
      have hpk : ¬ a = k := fun hk => h (hk ▸ rfl)
      simpa [assocGet, List.find?_cons, List.filter_cons, hpk] using ih
    · by_cases hk : a = k
      · subst hk
        simp [assocGet, List.find?_cons, List.filter_cons, hp]
      · simpa [assocGet, List.find?_cons, List.filter_cons, hp, hk] using ih

theorem assocGet_mem {α : Type} {l : List (Nat × α)} {k : Nat} {v : α}
    (h : assocGet l k = some v) : (k, v) ∈ l := by
  unfold assocGet at h
  obtain ⟨p1, hfind, hsnd⟩ := Option.map_eq_some'.mp h
  have hkey : p1.1 = k := by simpa using List.find?_some hfind
  have hp1 : p1 = (k, v) := by
    obtain ⟨a, b⟩ := p1
    simp only at hkey hsnd
    simp [hkey, hsnd]
  exact hp1 ▸ List.mem_of_find?_eq_some hfind

theorem assocGet_append_self_of_none {α : Type} (l : List (Nat × α)) (k : Nat)
    (x : α) (h : assocGet l k = none) :
    assocGet (l ++ [(k, x)]) k = some x := by
  induction l with
  | nil => simp [assocGet, List.find?_cons]
  | cons p rest ih =>
    obtain ⟨a, b⟩ := p
    by_cases hk : a = k
    · subst hk
      simp [assocGet, List.find?_cons] at h
    · simp only [assocGet, List.cons_append, List.find?_cons] at h ⊢
      simp only [hk, decide_False] at h ⊢
      exact ih h

theorem keepalive_chain_aux :
    ∀ (inputs : List LoopInput) (lk : Rat),
      List.Chain (fun a b => 15 ≤ b - a) lk (keepTimes (sessionRun lk inputs)) := by
  intro inputs
  induction inputs with
  | nil =>
    intro lk
    exact List.Chain.nil
  | cons i rest ih =>
    intro lk
    cases i with
    | disconnect => exact List.Chain.nil
    | msg now j => simpa [sessionRun, keepTimes] using ih lk
    | timeout now =>
      by_cases hc : now - lk ≥ 15
      · simp only [sessionRun, if_pos hc, keepTimes]
        exact List.Chain.cons (by linarith) (ih now)
      · simpa [sessionRun, if_neg hc] using ih lk

theorem sysStep_latest_unchanged (H : String → String) (db : List User)
    (st : SysState) (op : SysOp)
    (hop : ∀ a p n, op ≠ SysOp.pub a p n) :
    (sysStep H db st op).relay.latest_payload = st.relay.latest_payload ∧
    (sysStep H db st op).relay.latest_received_at
      = st.relay.latest_received_at := by
  cases op with
  | pub a p n => exact absurd rfl (hop a p n)
  | register k =>
    constructor <;> (simp only [sysStep]; split <;> rfl)
  | unregister k => exact ⟨rfl, rfl⟩
  | drain k =>
    constructor <;> (simp only [sysStep]; split <;> rfl)

theorem lastPub_run_aux (H : String → String) (db : List User) :
    ∀ (ops : List SysOp) (st : SysState) (acc : Option (Json × Rat)),
      st.relay.latest_payload = acc.map Prod.fst →
      st.relay.latest_received_at = acc.map Prod.snd →
      (runSys H db st ops).relay.latest_payload
        = (lastPub H db acc ops).map Prod.fst ∧
      (runSys H db st ops).relay.latest_received_at
        = (lastPub H db acc ops).map Prod.snd := by
  intro ops
  induction ops with
  | nil =>
    intro st acc h1 h2
    exact ⟨h1, h2⟩
  | cons op rest ih =>
    intro st acc h1 h2
    simp only [runSys]
    cases op with
    | pub api_key payload now =>
      cases hauth : authenticate_slave_api_key H db api_key with
      | none =>
        have hstep : sysStep H db st (.pub api_key payload now) = st := by
          simp [sysStep, ingest, hauth]
        rw [hstep]
        simpa [lastPub, hauth] using ih st acc h1 h2
      | some u =>
        have e1 : (sysStep H db st (.pub api_key payload now)).relay.latest_payload
            = some payload := by simp [sysStep, ingest, hauth]
        have e2 : (sysStep H db st (.pub api_key payload now)).relay.latest_received_at
            = some now := by simp [sysStep, ingest, hauth]
        have hrec := ih _ (some (payload, now)) (by simpa using e1) (by simpa using e2)
        simpa [lastPub, hauth] using hrec
    | register k =>
      have hu := sysStep_latest_unchanged H db st (.register k) (by intro a p n; simp)
      have hrec := ih _ acc (hu.1.trans h1) (hu.2.trans h2)
      simpa [lastPub] using hrec
    | unregister k =>
      have hu := sysStep_latest_unchanged H db st (.unregister k) (by intro a p n; simp)
      have hrec := ih _ acc (hu.1.trans h1) (hu.2.trans h2)
      simpa [lastPub] using hrec
    | drain k =>
      have hu := sysStep_latest_unchanged H db st (.drain k) (by intro a p n; simp)
      have hrec := ih _ acc (hu.1.trans h1) (hu.2.trans h2)
      simpa [lastPub] using hrec

theorem queue_put_length_le (q : List Json) (msg : Json)
    (h : q.length ≤ QUEUE_MAXSIZE) :
    (queue_put q msg).length ≤ QUEUE_MAXSIZE := by
  unfold queue_put
  split
  · exact h
  · next hlt =>
    simp only [List.length_append, List.length_cons, List.length_nil]
    omega

theorem sysStep_capOK (H : String → String) (db : List User) (st : SysState)
    (op : SysOp) (h : capOK st) : capOK (sysStep H db st op) := by
  cases op with
  | pub api_key payload now =>
    intro p hp
    simp only [sysStep, ingest] at hp
    cases hauth : authenticate_slave_api_key H db api_key with
    | none =>
      rw [hauth] at hp
      exact h p hp
    | some u =>
      rw [hauth] at hp
      simp only [List.mem_map] at hp
      obtain ⟨p0, hp0, rfl⟩ := hp
      exact queue_put_length_le _ _ (h p0 hp0)
  | register k =>
    intro p hp
    simp only [sysStep] at hp
    split at hp
    · exact h p hp
    · simp only [List.mem_append, List.mem_singleton] at hp
      rcases hp with hp | rfl
      · exact h p hp
      · simp [QUEUE_MAXSIZE]
  | unregister k =>
    intro p hp
    simp only [sysStep] at hp
    exact h p (List.mem_of_mem_filter hp)
  | drain k =>
    intro p hp
    simp only [sysStep] at hp
    split at hp
    · next m restQ hfind =>
      simp only [assocUpd, List.mem_map] at hp
      obtain ⟨p0, hp0, rfl⟩ := hp
      split
      · next =>
        have hmem : (k, m :: restQ) ∈ st.relay.subscribers := assocGet_mem hfind
        have hlen := h _ hmem
        simp only [List.length_cons] at hlen
        show restQ.length ≤ QUEUE_MAXSIZE
        omega
      · exact h p0 hp0
    · exact h p hp

theorem runSys_capOK (H : String → String) (db : List User) :
    ∀ (ops : List SysOp) (st : SysState), capOK st →
      capOK (runSys H db st ops) := by
  intro ops
  induction ops with
  | nil => exact fun st h => h
  | cons op rest ih =>
    intro st h
    exact ih _ (sysStep_capOK H db st op h)

/-! ## Claim theorems -/

/-- Claim C1: per-subscriber delivery is FIFO in publish order.  For
every trace of atomic relay operations in which subscriber queue `k` is
registered at the start (contents `q`, emissions `e`) and is never
unregistered, the frames the session has emitted followed by the frames
still queued form a sublist — same order, some capacity drops — of the
envelopes broadcast by the successful publishes of the trace (appended
to what was already present).  In particular, starting from an empty
queue, the messages not dropped for capacity are emitted in exactly
publish order. -/
theorem per_subscriber_delivery_fifo (H : String → String) (db : List User) :
    ∀ (ops : List SysOp) (st : SysState) (k : Nat) (q e : List Json),
      assocGet st.relay.subscribers k = some q →
      assocGet st.emitted k = some e →
      SysOp.unregister k ∉ ops →
      ∃ q' e',
        assocGet (runSys H db st ops).relay.subscribers k = some q' ∧
        assocGet (runSys H db st ops).emitted k = some e' ∧
        List.Sublist (e' ++ q') ((e ++ q) ++ pubMsgs H db ops) := by
  intro ops
  induction ops with
  | nil =>
    intro st k q e hq he _
    exact ⟨q, e, hq, he, by simp [runSys, pubMsgs]⟩
  | cons op rest ih =>
    intro st k q e hq he hnu
    have hnu_op : op ≠ SysOp.unregister k := fun h => hnu (h ▸ List.mem_cons_self _ _)
    have hnu_rest : SysOp.unregister k ∉ rest := fun h => hnu (List.mem_cons_of_mem _ h)
    simp only [runSys]
    cases op with
    | pub api_key payload now =>
      cases hauth : authenticate_slave_api_key H db api_key with
      | none =>
        have hst : sysStep H db st (.pub api_key payload now) = st := by
          simp [sysStep, ingest, hauth]
        rw [hst]
        obtain ⟨q', e', h1, h2, h3⟩ := ih st k q e hq he hnu_rest
        exact ⟨q', e', h1, h2, by simpa [pubMsgs, hauth] using h3⟩
      | some u =>
        set msg := envelope now u.email payload with hmsg
        have hq1 : assocGet (sysStep H db st (.pub api_key payload now)).relay.subscribers k
            = some (queue_put q msg) := by
          have hm := assocGet_map_snd (fun b => queue_put b msg) k st.relay.subscribers
          simp only [sysStep, ingest, hauth]
          simpa [hq] using hm
        have he1 : assocGet (sysStep H db st (.pub api_key payload now)).emitted k = some e := by
          simp [sysStep, he]
        obtain ⟨q', e', h1, h2, h3⟩ := ih _ k _ e hq1 he1 hnu_rest
        refine ⟨q', e', h1, h2, ?_⟩
        have hbridge : List.Sublist (e ++ queue_put q msg) ((e ++ q) ++ [msg]) := by
          unfold queue_put
          split
          · exact List.sublist_append_left _ _
          · rw [← List.append_assoc]
        have hbridge2 := hbridge.append_right (pubMsgs H db rest)
        have h5 := h3.trans hbridge2
        simpa [pubMsgs, hauth, List.append_assoc] using h5
    | register j =>
      by_cases hjk : j = k
      · subst hjk
        have hst : sysStep H db st (.register j) = st := by
          simp [sysStep, hq]
        rw [hst]
        obtain ⟨q', e', h1, h2, h3⟩ := ih st j q e hq he hnu_rest
        exact ⟨q', e', h1, h2, by simpa [pubMsgs] using h3⟩
      · have hkj : k ≠ j := fun h => hjk h.symm
        have hq1 : assocGet (sysStep H db st (.register j)).relay.subscribers k = some q := by
          simp only [sysStep]
          split
          · exact hq
          · simpa [assocGet_append_single_ne _ _ _ _ hkj] using hq
        have he1 : assocGet (sysStep H db st (.register j)).emitted k = some e := by
          simp only [sysStep]
          split
          · exact he
          · split
            · exact he
            · simpa [assocGet_append_single_ne _ _ _ _ hkj] using he
        obtain ⟨q', e', h1, h2, h3⟩ := ih _ k q e hq1 he1 hnu_rest
        exact ⟨q', e', h1, h2, by simpa [pubMsgs] using h3⟩
    | unregister j =>
      have hkj : k ≠ j := by
        intro h
        exact hnu_op (by rw [h])
      have hq1 : assocGet (sysStep H db st (.unregister j)).relay.subscribers k = some q := by
        simp only [sysStep]
        rw [assocGet_filter_ne _ _ _ hkj]
        exact hq
      have he1 : assocGet (sysStep H db st (.unregister j)).emitted k = some e := by
        simpa [sysStep] using he
      obtain ⟨q', e', h1, h2, h3⟩ := ih _ k q e hq1 he1 hnu_rest
      exact ⟨q', e', h1, h2, by simpa [pubMsgs] using h3⟩
    | drain j =>
      by_cases hjk : j = k
      · subst hjk
        cases hq0 : q with
        | nil =>
          subst hq0
          have hst : sysStep H db st (.drain j) = st := by
            simp [sysStep, hq]
          rw [hst]
          obtain ⟨q', e', h1, h2, h3⟩ := ih st j [] e hq he hnu_rest
          exact ⟨q', e', h1, h2, by simpa [pubMsgs] using h3⟩
        | cons m restQ =>
          subst hq0
          have hq1 : assocGet (sysStep H db st (.drain j)).relay.subscribers j
              = some restQ := by
            simp only [sysStep, hq]
            rw [assocGet_assocUpd_self, hq]
            rfl
          have he1 : assocGet (sysStep H db st (.drain j)).emitted j
              = some (e ++ [m]) := by
            simp only [sysStep, hq]
            rw [assocGet_assocUpd_self, he]
            rfl
          obtain ⟨q', e', h1, h2, h3⟩ := ih _ j restQ (e ++ [m]) hq1 he1 hnu_rest
          refine ⟨q', e', h1, h2, ?_⟩
          simpa [pubMsgs, List.append_assoc] using h3
      · have hkj : k ≠ j := fun h => hjk h.symm
        have hq1 : assocGet (sysStep H db st (.drain j)).relay.subscribers k = some q := by
          simp only [sysStep]
          split
          · simpa [assocGet_assocUpd_ne _ _ _ _ hkj] using hq
          · exact hq
        have he1 : assocGet (sysStep H db st (.drain j)).emitted k = some e := by
          simp only [sysStep]
          split
          · simpa [assocGet_assocUpd_ne _ _ _ _ hkj] using he
          · exact he
        obtain ⟨q', e', h1, h2, h3⟩ := ih _ k q e hq1 he1 hnu_rest
        exact ⟨q', e', h1, h2, by simpa [pubMsgs] using h3⟩

/-- Witness for C1: the FIFO theorem applied to the concrete trace
`ops0` (two publishes by Alice around a drain, with a second subscriber
registering mid-trace), for subscriber 0 registered from the start. -/
theorem per_subscriber_delivery_fifo_witness :
    ∃ q' e',
      assocGet (runSys H0 db0 st0 ops0).relay.subscribers 0 = some q' ∧
      assocGet (runSys H0 db0 st0 ops0).emitted 0 = some e' ∧
      List.Sublist (e' ++ q')
        ((([] : List Json) ++ []) ++ pubMsgs H0 db0 ops0) :=
  per_subscriber_delivery_fifo H0 db0 ops0 st0 0 [] [] rfl rfl
    (by simp [ops0])

/-- Claim C2: every subscriber queue holds at most `QUEUE_MAXSIZE = 10`
pending messages along every trace from process start; and on a
successful publish the response is the success body regardless of queue
fullness, a queue at capacity keeps exactly its old contents (the new
message is dropped for it alone), and every queue with room receives
the envelope.  The model's enqueue is `put_nowait` guarded by
`q.full()`, so it never blocks by construction. -/
theorem subscriber_queue_capacity (H : String → String) (db : List User) :
    (∀ ops : List SysOp, capOK (runSys H db initSys ops)) ∧
    (∀ (payload : Json) (api_key : Option String) (now : Rat)
        (st : RelayState) (u : User),
      authenticate_slave_api_key H db api_key = some u →
      (ingest H db payload api_key now st).1 = IngestResponse.ok ∧
      ∀ (j : Nat) (q : List Json), assocGet st.subscribers j = some q →
        assocGet (ingest H db payload api_key now st).2.subscribers j =
          some (if QUEUE_MAXSIZE ≤ q.length then q
                else q ++ [envelope now u.email payload])) := by
  constructor
  · intro ops
    refine runSys_capOK H db ops initSys ?_
    intro p hp
    simp [initSys, initState] at hp
  · intro payload api_key now st u hauth
    constructor
    · simp [ingest, hauth]
    · intro j q hj
      have hm := assocGet_map_snd
        (fun b => queue_put b (envelope now u.email payload)) j st.subscribers
      simp only [ingest, hauth]
      rw [hm, hj]
      simp [queue_put]

/-- Witness for C2: the capacity invariant on the concrete trace
`ops0`, and a publish by Alice against `stFull`: the success response,
the full queue 0 unchanged, the empty queue 1 receiving the envelope. -/
theorem subscriber_queue_capacity_witness :
    capOK (runSys H0 db0 initSys ops0) ∧
    (ingest H0 db0 pay2 (some "u1.secretA") 100 stFull).1 = IngestResponse.ok ∧
    assocGet (ingest H0 db0 pay2 (some "u1.secretA") 100 stFull).2.subscribers 0
      = some fullQ ∧
    assocGet (ingest H0 db0 pay2 (some "u1.secretA") 100 stFull).2.subscribers 1
      = some [envelope 100 "alice@example.com" pay2] := by
  have h := subscriber_queue_capacity H0 db0
  have hauth : authenticate_slave_api_key H0 db0 (some "u1.secretA")
      = some aliceActive := by decide
  have h2 := h.2 pay2 (some "u1.secretA") 100 stFull aliceActive hauth
  refine ⟨h.1 ops0, h2.1, ?_, ?_⟩
  · have h0 := h2.2 0 fullQ rfl
    simpa [fullQ, QUEUE_MAXSIZE] using h0
  · have h1 := h2.2 1 [] rfl
    simpa [QUEUE_MAXSIZE, aliceActive] using h1

/-- Claim C3: a read of the latest snapshot immediately after a
successful publish of payload X, with no interleaving publish, returns
a body whose payload equals X (and whose stamp is the publish time). -/
theorem read_after_publish (H : String → String) (db : List User)
    (payload : Json) (api_key : Option String) (now : Rat)
    (st : RelayState) (u : User)
    (hauth : authenticate_slave_api_key H db api_key = some u) :
    (ingest H db payload api_key now st).2.latest_payload = some payload ∧
    Json.getField (latest (ingest H db payload api_key now st).2) "payload"
      = some payload ∧
    Json.getField (latest (ingest H db payload api_key now st).2) "received_at"
      = some (Json.num now) := by
  refine ⟨?_, ?_, ?_⟩ <;> simp [ingest, hauth, latest, Json.getField]

/-- Witness for C3: Alice publishes `pay1` at time 100 into the empty
state; the subsequent read returns `pay1` stamped 100. -/
theorem read_after_publish_witness :
    (ingest H0 db0 pay1 (some "u1.secretA") 100 initState).2.latest_payload
      = some pay1 ∧
    Json.getField (latest (ingest H0 db0 pay1 (some "u1.secretA") 100 initState).2)
      "payload" = some pay1 ∧
    Json.getField (latest (ingest H0 db0 pay1 (some "u1.secretA") 100 initState).2)
      "received_at" = some (Json.num 100) :=
  read_after_publish H0 db0 pay1 (some "u1.secretA") 100 initState aliceActive
    (by decide)

/-- Claim C4: an ingest whose credentials fail authentication responds
401 Unauthorized and leaves the whole relay state — snapshot store,
subscriber registry, every queue — exactly unchanged, so a subsequent
get-latest returns the same body as before the attempt. -/
theorem ingest_auth_failure_no_state_change (H : String → String)
    (db : List User) (payload : Json) (api_key : Option String) (now : Rat)
    (st : RelayState)
    (hauth : authenticate_slave_api_key H db api_key = none) :
    (ingest H db payload api_key now st).1 = IngestResponse.unauthorized ∧
    (ingest H db payload api_key now st).2 = st ∧
    latest (ingest H db payload api_key now st).2 = latest st := by
  refine ⟨?_, ?_, ?_⟩ <;> simp [ingest, hauth]

/-- Witness for C4: a key with Alice's prefix but the wrong secret is
rejected against the state `stFull` and changes nothing. -/
theorem ingest_auth_failure_witness :
    (ingest H0 db0 pay1 (some "u1.wrong") 100 stFull).1
      = IngestResponse.unauthorized ∧
    (ingest H0 db0 pay1 (some "u1.wrong") 100 stFull).2 = stFull ∧
    latest (ingest H0 db0 pay1 (some "u1.wrong") 100 stFull).2 = latest stFull :=
  ingest_auth_failure_no_state_change H0 db0 pay1 (some "u1.wrong") 100 stFull
    (by decide)

/-- Counterexample to C5 as stated: Bob's record is inactive
(`is_active = false`), yet his valid API key is accepted by `ingest`
and the publish mutates the snapshot store.  `ingest` calls
`_authenticate_slave_api_key` directly (app.py line 128) and never
checks `is_active`. -/
theorem ingest_accepts_inactive_principal :
    bobInactive.is_active = false ∧
    authenticate_slave_api_key H0 db0 (some "u2.secretB") = some bobInactive ∧
    (ingest H0 db0 pay1 (some "u2.secretB") 50 initState).1
      = IngestResponse.ok ∧
    (ingest H0 db0 pay1 (some "u2.secretB") 50 initState).2.latest_payload
      = some pay1 := by
  have hauth : authenticate_slave_api_key H0 db0 (some "u2.secretB")
      = some bobInactive := by decide
  exact ⟨rfl, hauth, by simp [ingest, hauth], by simp [ingest, hauth]⟩

/-- Amended C5: publish (`ingest`) accepts any API key whose digest
check succeeds, whether or not the principal is active, and mutates
state; the active-principal requirement applies only to get-latest and
open-stream, whose guard `_require_active_user_or_api_key` rejects the
same key when the principal is inactive (absent a browser session). -/
theorem ingest_ignores_active_flag (H : String → String) (db : List User)
    (payload : Json) (api_key : Option String) (now : Rat)
    (st : RelayState) (u : User)
    (hauth : authenticate_slave_api_key H db api_key = some u) :
    ((ingest H db payload api_key now st).1 = IngestResponse.ok ∧
     (ingest H db payload api_key now st).2.latest_payload = some payload) ∧
    (u.is_active = false →
      require_active_user_or_api_key H db none api_key = none) := by
  refine ⟨⟨by simp [ingest, hauth], by simp [ingest, hauth]⟩, ?_⟩
  intro hina
  simp [require_active_user_or_api_key, hauth, hina]

/-- Witness for the amended C5 at Bob's inactive record: ingest accepts
and mutates; the dual-mode guard rejects the same key. -/
theorem ingest_ignores_active_flag_witness :
    ((ingest H0 db0 pay2 (some "u2.secretB") 60 initState).1
        = IngestResponse.ok ∧
     (ingest H0 db0 pay2 (some "u2.secretB") 60 initState).2.latest_payload
        = some pay2) ∧
    require_active_user_or_api_key H0 db0 none (some "u2.secretB") = none := by
  have h := ingest_ignores_active_flag H0 db0 pay2 (some "u2.secretB") 60
    initState bobInactive (by decide)
  exact ⟨h.1, h.2 rfl⟩

/-- Counterexample to C6 as stated: Carol's record stores the digest of
the secret alone — exactly the storage the claim describes.  The
claim-worded check accepts her key `u3.secretC`; the code rejects it,
because the code hashes the ENTIRE compound key, not the secret.
Conversely the code accepts Alice's key, whose stored hash is the
digest of the full key.  Acceptance is therefore not a function of the
secret and the stored hash alone, refuting "a key is accepted if and
only if this salted-hash check of the secret succeeds". -/
theorem api_key_secret_hash_cex :
    claim_verify_secret_only H0 [carol] (some "u3.secretC") = some carol ∧
    authenticate_slave_api_key H0 [carol] (some "u3.secretC") = none ∧
    authenticate_slave_api_key H0 db0 (some "u1.secretA") = some aliceActive := by
  refine ⟨by decide, by decide, by decide⟩

/-- Amended C6: verification splits the compound key at the first dot
and looks up the stored record by the prefix, as claimed; but the
digest — an unsalted SHA-256, compared with `hmac.compare_digest` — is
computed over the entire compound key, and a key is accepted iff the
record found by prefix stores a non-empty hash equal to that full-key
digest. -/
theorem api_key_verification_characterization (H : String → String)
    (db : List User) (key : String) (u : User) :
    authenticate_slave_api_key H db (some key) = some u ↔
      (key ≠ "" ∧ key.data.contains '.' = true ∧
       String.mk (key.data.takeWhile (fun c => c ≠ '.')) ≠ "" ∧
       db.find? (fun v => v.api_key_pfx
           = some (String.mk (key.data.takeWhile (fun c => c ≠ '.')))) = some u ∧
       ∃ h, u.api_key_hash = some h ∧ h ≠ "" ∧ H key = h) := by
  constructor
  · intro hacc
    simp only [authenticate_slave_api_key] at hacc
    split at hacc
    next h1 => exact absurd hacc (by simp)
    next h1 =>
      split at hacc
      next h2 => exact absurd hacc (by simp)
      next h2 =>
        split at hacc
        next h3 => exact absurd hacc (by simp)
        next h3 =>
          split at hacc
          next hfind => exact absurd hacc (by simp)
          next v hfind =>
            split at hacc
            next hh => exact absurd hacc (by simp)
            next h hh =>
              split at hacc
              next hne => exact absurd hacc (by simp)
              next hne =>
                split at hacc
                next hH =>
                  have huv : v = u := by
                    simpa using hacc
                  subst huv
                  refine ⟨h1, by simpa using h2, h3, hfind, h, hh, hne, hH⟩
                next hH => exact absurd hacc (by simp)
  · rintro ⟨h1, h2, h3, hfind, h, hh, hne, hH⟩
    simp only [authenticate_slave_api_key]
    rw [if_neg h1, if_neg (not_not_intro h2), if_neg h3]
    simp only [hfind, hh]
    rw [if_neg hne, if_pos hH]

/-- Witness for the amended C6: the characterization applied to Alice's
key, in both directions. -/
theorem api_key_verification_characterization_witness :
    authenticate_slave_api_key H0 db0 (some "u1.secretA") = some aliceActive ∧
    ("u1.secretA" ≠ "" ∧ "u1.secretA".data.contains '.' = true ∧
     String.mk ("u1.secretA".data.takeWhile (fun c => c ≠ '.')) ≠ "" ∧
     db0.find? (fun v => v.api_key_pfx
         = some (String.mk ("u1.secretA".data.takeWhile (fun c => c ≠ '.'))))
       = some aliceActive ∧
     ∃ h, aliceActive.api_key_hash = some h ∧ h ≠ "" ∧ H0 "u1.secretA" = h) := by
  have hchar := api_key_verification_characterization H0 db0 "u1.secretA" aliceActive
  have hside : "u1.secretA" ≠ "" ∧ "u1.secretA".data.contains '.' = true ∧
      String.mk ("u1.secretA".data.takeWhile (fun c => c ≠ '.')) ≠ "" ∧
      db0.find? (fun v => v.api_key_pfx
          = some (String.mk ("u1.secretA".data.takeWhile (fun c => c ≠ '.'))))
        = some aliceActive ∧
      ∃ h, aliceActive.api_key_hash = some h ∧ h ≠ "" ∧ H0 "u1.secretA" = h :=
    ⟨by decide, by decide, by decide, by decide, H0 "u1.secretA",
     rfl, by decide, rfl⟩
  exact ⟨hchar.mpr hside, hside⟩

/-- Counterexample to C7 as stated: after a concrete publish the frame
actually enqueued for subscriber 0 carries the key `"received_at"` —
snake case — and has NO `"receivedAt"` key; and the priming first frame
of a session over a stored snapshot has only the keys `"received_at"`
and `"payload"`, with no `"publisher"` field at all. -/
theorem envelope_shape_cex :
    assocGet (runSys H0 db0 st0
        [SysOp.pub (some "u1.secretA") pay1 100]).relay.subscribers 0
      = some [envelope 100 "alice@example.com" pay1] ∧
    (envelope 100 "alice@example.com" pay1).keys
      = ["received_at", "publisher", "payload"] ∧
    Json.getField (envelope 100 "alice@example.com" pay1) "receivedAt" = none ∧
    primingEvent relSnap
      = some (Json.obj [("received_at", Json.num 100), ("payload", pay1)]) ∧
    Json.getField (Json.obj [("received_at", Json.num 100), ("payload", pay1)])
      "publisher" = none := by
  have hauth : authenticate_slave_api_key H0 db0 (some "u1.secretA")
      = some aliceActive := by decide
  refine ⟨?_, by simp [envelope, Json.keys], by simp [envelope, Json.getField],
    by simp [primingEvent, relSnap], by simp [Json.getField]⟩
  simp [runSys, sysStep, ingest, hauth, st0, assocGet, queue_put,
    QUEUE_MAXSIZE, aliceActive]

/-- Amended C7: the envelope broadcast by a successful publish has the
JSON shape with keys `received_at` (snake case), `publisher`,
`payload`, the payload field equal to the published object and no
`receivedAt` key; that envelope is what every non-full subscriber queue
receives; and the priming first event of a stream session has only the
keys `received_at` and `payload` — no publisher field. -/
theorem envelope_and_priming_shape (H : String → String) (db : List User)
    (payload : Json) (api_key : Option String) (now : Rat)
    (st : RelayState) (u : User)
    (hauth : authenticate_slave_api_key H db api_key = some u) :
    ((envelope now u.email payload).keys
        = ["received_at", "publisher", "payload"] ∧
     Json.getField (envelope now u.email payload) "received_at"
        = some (Json.num now) ∧
     Json.getField (envelope now u.email payload) "publisher"
        = some (Json.str u.email) ∧
     Json.getField (envelope now u.email payload) "payload" = some payload ∧
     Json.getField (envelope now u.email payload) "receivedAt" = none) ∧
    (∀ (j : Nat) (q : List Json), assocGet st.subscribers j = some q →
      q.length < QUEUE_MAXSIZE →
      assocGet (ingest H db payload api_key now st).2.subscribers j
        = some (q ++ [envelope now u.email payload])) ∧
    (∀ p : Json, st.latest_payload = some p →
      ∃ jp, primingEvent st = some jp ∧
        jp.keys = ["received_at", "payload"] ∧
        Json.getField jp "payload" = some p ∧
        Json.getField jp "publisher" = none) := by
  refine ⟨⟨by simp [envelope, Json.keys], by simp [envelope, Json.getField],
    by simp [envelope, Json.getField], by simp [envelope, Json.getField],
    by simp [envelope, Json.getField]⟩, ?_, ?_⟩
  · intro j q hj hlen
    have hm := assocGet_map_snd
      (fun b => queue_put b (envelope now u.email payload)) j st.subscribers
    simp only [ingest, hauth]
    rw [hm, hj]
    simp only [Option.map_some']
    unfold queue_put
    rw [if_neg (Nat.not_le.mpr hlen)]
  · intro p hp
    refine ⟨Json.obj [("received_at",
        match st.latest_received_at with
        | none => Json.null
        | some t => Json.num t), ("payload", p)], ?_, ?_, ?_, ?_⟩
    · simp [primingEvent, hp]
    · simp [Json.keys]
    · simp [Json.getField]
    · simp [Json.getField]

/-- Witness for the amended C7: Alice publishes `pay2` at 101 into
`relSnapQ` (snapshot `pay1` present, one empty subscriber queue). -/
theorem envelope_and_priming_shape_witness :
    ((envelope 101 aliceActive.email pay2).keys
        = ["received_at", "publisher", "payload"] ∧
     Json.getField (envelope 101 aliceActive.email pay2) "received_at"
        = some (Json.num 101) ∧
     Json.getField (envelope 101 aliceActive.email pay2) "publisher"
        = some (Json.str aliceActive.email) ∧
     Json.getField (envelope 101 aliceActive.email pay2) "payload" = some pay2 ∧
     Json.getField (envelope 101 aliceActive.email pay2) "receivedAt" = none) ∧
    assocGet (ingest H0 db0 pay2 (some "u1.secretA") 101 relSnapQ).2.subscribers 0
      = some ([] ++ [envelope 101 aliceActive.email pay2]) ∧
    (∃ jp, primingEvent relSnapQ = some jp ∧
      jp.keys = ["received_at", "payload"] ∧
      Json.getField jp "payload" = some pay1 ∧
      Json.getField jp "publisher" = none) := by
  have h := envelope_and_priming_shape H0 db0 pay2 (some "u1.secretA") 101
    relSnapQ aliceActive (by decide)
  exact ⟨h.1, h.2.1 0 [] rfl (by decide), h.2.2 pay1 rfl⟩

/-- Counterexample to C8 as stated: `last_keepalive` is initialised to
absolute time `0.0`, so a session whose clock reads 1000 at its first
2-unit timeout (the session started around 998, idle for only 2 units)
emits a keepalive immediately — before 15 units of idleness; and after
a data frame delivered at 1016, a keepalive follows at 1018, only
2 units after that delivery, because the code compares against the last
KEEPALIVE time, not the last delivery. -/
theorem keepalive_first_idle_cex :
    sessionRun 0 [LoopInput.timeout 1000] = [StreamEvent.keepalive 1000] ∧
    sessionRun 0 [LoopInput.timeout 1000, LoopInput.msg 1016 pay1,
        LoopInput.timeout 1018]
      = [StreamEvent.keepalive 1000, StreamEvent.data 1016 pay1,
         StreamEvent.keepalive 1018] ∧
    (1000 : Rat) - 998 < 15 ∧ (1018 : Rat) - 1016 < 15 := by
  refine ⟨by norm_num [sessionRun], by norm_num [sessionRun],
    by norm_num, by norm_num⟩

/-- Amended C8: a keepalive is emitted exactly on those 2-unit timeouts
at which at least 15 time-units have elapsed since the session's LAST
KEEPALIVE, whose reference starts at absolute time 0; consequently the
keepalive time stamps of any session run, chained from that initial
reference, are at least 15 units apart — but idleness since the last
delivered message is never consulted, and the first keepalive can come
at the session's first idle timeout. -/
theorem keepalive_spacing (inputs : List LoopInput) :
    List.Chain (fun a b => 15 ≤ b - a) 0
      (keepTimes (sessionRun 0 inputs)) :=
  keepalive_chain_aux inputs 0

/-- Counterexample to C9 as stated: with snapshot `pay1` stored and a
publish of `pay2` interleaved between the two startup steps, the code
(which registers at lines 270-272 and only then reads at line 278)
primes with the NEW snapshot `pay2`; the read-first policy the claim
asserts would prime with `pay1`.  The observable priming frames differ,
so the code's priming read does not precede registration. -/
theorem startup_order_cex :
    (startup_register_first H0 db0 pay2 (some "u1.secretA") 101 0 relSnap).1
      = some (Json.obj [("received_at", Json.num 101), ("payload", pay2)]) ∧
    (claim_startup_read_first H0 db0 pay2 (some "u1.secretA") 101 0 relSnap).1
      = some (Json.obj [("received_at", Json.num 100), ("payload", pay1)]) ∧
    (startup_register_first H0 db0 pay2 (some "u1.secretA") 101 0 relSnap).1
      ≠ (claim_startup_read_first H0 db0 pay2 (some "u1.secretA") 101 0 relSnap).1 := by
  have hauth : authenticate_slave_api_key H0 db0 (some "u1.secretA")
      = some aliceActive := by decide
  have hA : (startup_register_first H0 db0 pay2 (some "u1.secretA") 101 0 relSnap).1
      = some (Json.obj [("received_at", Json.num 101), ("payload", pay2)]) := by
    simp [startup_register_first, streamRegister, primingEvent, ingest, hauth,
      relSnap]
  have hB : (claim_startup_read_first H0 db0 pay2 (some "u1.secretA") 101 0 relSnap).1
      = some (Json.obj [("received_at", Json.num 100), ("payload", pay1)]) := by
    simp [claim_startup_read_first, primingEvent, relSnap]
  refine ⟨hA, hB, ?_⟩
  rw [hA, hB]
  intro hcontra
  simp only [Option.some.injEq, Json.obj.injEq, List.cons.injEq, Prod.mk.injEq,
    Json.num.injEq] at hcontra
  have : (101 : Rat) = 100 := hcontra.1.2
  norm_num at this

/-- Amended C9: at stream-session startup the queue is registered FIRST
and the priming read happens SECOND; a publish occurring strictly
between the two steps is therefore both reflected in the priming frame
and enqueued, yielding at most one duplicate delivery of the same (new)
snapshot — the queue holds exactly the one broadcast copy. -/
theorem startup_duplicate_delivery (H : String → String) (db : List User)
    (payload : Json) (api_key : Option String) (now : Rat) (k : Nat)
    (st : RelayState) (u : User)
    (hauth : authenticate_slave_api_key H db api_key = some u)
    (hk : assocGet st.subscribers k = none) :
    (startup_register_first H db payload api_key now k st).1
      = some (Json.obj [("received_at", Json.num now), ("payload", payload)]) ∧
    assocGet (startup_register_first H db payload api_key now k st).2.subscribers k
      = some [envelope now u.email payload] := by
  have hfind : st.subscribers.find? (fun p => p.1 = k) = none :=
    Option.map_eq_none'.mp hk
  constructor
  · simp [startup_register_first, streamRegister, hfind, ingest, hauth,
      primingEvent]
  · have hget : assocGet (st.subscribers ++ [(k, [])]) k = some [] :=
      assocGet_append_self_of_none st.subscribers k [] hk
    have hm := assocGet_map_snd
      (fun b => queue_put b (envelope now u.email payload)) k
      (st.subscribers ++ [(k, [])])
    simp only [startup_register_first, streamRegister, hfind, ingest, hauth,
      Option.isSome_none, Bool.false_eq_true, if_false]
    rw [hm, hget]
    simp [queue_put, QUEUE_MAXSIZE]

/-- Witness for the amended C9: Alice publishes `pay2` at 101 between
the registration of queue 0 and the priming read, over snapshot state
`relSnap`. -/
theorem startup_duplicate_delivery_witness :
    (startup_register_first H0 db0 pay2 (some "u1.secretA") 101 0 relSnap).1
      = some (Json.obj [("received_at", Json.num 101), ("payload", pay2)]) ∧
    assocGet (startup_register_first H0 db0 pay2 (some "u1.secretA") 101 0
        relSnap).2.subscribers 0
      = some [envelope 101 aliceActive.email pay2] :=
  startup_duplicate_delivery H0 db0 pay2 (some "u1.secretA") 101 0 relSnap
    aliceActive (by decide) rfl

/-- Claim C10: the snapshot store's payload and timestamp are always a
matched pair.  Along every trace from process start, the stored payload
and stamp are exactly the pair written by the last successful publish
of the trace (both absent when no publish succeeded), so every read —
`latest` or a priming read, both of which take the two fields from this
same state — observes a payload and a stamp from the same publish, and
the stamp is present whenever the payload is. -/
theorem snapshot_pair_matched (H : String → String) (db : List User)
    (ops : List SysOp) :
    (runSys H db initSys ops).relay.latest_payload
      = (lastPub H db none ops).map Prod.fst ∧
    (runSys H db initSys ops).relay.latest_received_at
      = (lastPub H db none ops).map Prod.snd ∧
    ((runSys H db initSys ops).relay.latest_payload.isSome ↔
      (runSys H db initSys ops).relay.latest_received_at.isSome) := by
  have h := lastPub_run_aux H db ops initSys none rfl rfl
  refine ⟨h.1, h.2, ?_⟩
  rw [h.1, h.2]
  cases lastPub H db none ops <;> simp

end Relay
